import Mathlib

/-!
# Verification of the CLAP processing-engine specification

Shallow embedding of the CLAP plugin ABI headers (`events.h`, `process.h`,
`version.h`) together with the processing-engine components the design
document describes around them (event dispatcher, voice lifecycle tracker,
parameter resolution engine, transport tracker, process loop driver).
The headers only declare the data model and contracts; the engine itself is
modelled from the specification's words, as marked on each definition.
-/

namespace Clap

/-! ## Version (`src/include/clap/version.h`) -/

/-- Structure `clap_version` from version.h: major / minor / revision, all `uint32_t`. -/
structure clap_version where
  major : Nat
  minor : Nat
  revision : Nat
deriving DecidableEq, Repr

def CLAP_VERSION_MAJOR : Nat := 0
def CLAP_VERSION_MINOR : Nat := 24
def CLAP_VERSION_REVISION : Nat := 1

def CLAP_VERSION : clap_version :=
  ⟨CLAP_VERSION_MAJOR, CLAP_VERSION_MINOR, CLAP_VERSION_REVISION⟩

/-- Function `clap_version_is_compatible` from version.h:
`v.major == CLAP_VERSION_MAJOR && v.minor == CLAP_VERSION_MINOR`. -/
def clap_version_is_compatible (v : clap_version) : Bool :=
  v.major == CLAP_VERSION_MAJOR && v.minor == CLAP_VERSION_MINOR

/-! ## Event header and process status (`events.h`, `process.h`) -/

/-- Structure `clap_event_header` from events.h (`size`, `time`, `space_id`, `type`,
`flags`; all unsigned). -/
structure clap_event_header where
  size : Nat
  time : Nat
  space_id : Nat
  type : Nat
  flags : Nat
deriving DecidableEq, Repr

/-- Event type tags, in the order of the anonymous enum in events.h. -/
def CLAP_EVENT_NOTE_ON : Nat := 0
def CLAP_EVENT_NOTE_OFF : Nat := 1
def CLAP_EVENT_NOTE_CHOKE : Nat := 2
def CLAP_EVENT_NOTE_END : Nat := 3
def CLAP_EVENT_NOTE_EXPRESSION : Nat := 4
def CLAP_EVENT_PARAM_VALUE : Nat := 5
def CLAP_EVENT_PARAM_MOD : Nat := 6
def CLAP_EVENT_PARAM_GESTURE_BEGIN : Nat := 7
def CLAP_EVENT_PARAM_GESTURE_END : Nat := 8
def CLAP_EVENT_TRANSPORT : Nat := 9
def CLAP_EVENT_MIDI : Nat := 10
def CLAP_EVENT_MIDI_SYSEX : Nat := 11
def CLAP_EVENT_MIDI2 : Nat := 12

/-- Process status codes from process.h. -/
def CLAP_PROCESS_ERROR : Nat := 0
def CLAP_PROCESS_CONTINUE : Nat := 1
def CLAP_PROCESS_CONTINUE_IF_NOT_QUIET : Nat := 2
def CLAP_PROCESS_TAIL : Nat := 3
def CLAP_PROCESS_SLEEP : Nat := 4

/-! ## Event Merger/Dispatcher (spec section 4.2) -/

/-- Decidable check that a sequence of event headers is sorted by
non-decreasing `time` (events.h on `clap_input_events`: "events must be
sorted by time"). -/
def timesSorted : List clap_event_header → Bool
  | [] => true
  | [_] => true
  | a :: b :: rest => decide (a.time ≤ b.time) && timesSorted (b :: rest)

/-- Modelled from the spec: one step of the Dispatcher's sub-range
partitioning (the Dispatcher itself is absent from the headers, which only
declare the `clap_input_events` view). An event is merged into the front
sub-range when its time matches, otherwise it opens a new sub-range in
front; queue order inside a sub-range is preserved. -/
def insertGroup (e : clap_event_header) :
    List (Nat × List clap_event_header) → List (Nat × List clap_event_header)
  | [] => [(e.time, [e])]
  | (t, g) :: gs =>
    if e.time = t then (t, e :: g) :: gs else (e.time, [e]) :: (t, g) :: gs

/-- Modelled from the spec: the Dispatcher partitions the block's event
queue into sub-ranges at every distinct event `time` value, visiting them in
time order and keeping same-timestamp events in queue order. -/
def groupByTime (evs : List clap_event_header) :
    List (Nat × List clap_event_header) :=
  evs.foldr insertGroup []

/-! ## Voice Lifecycle Tracker (spec section 4.3) -/

/-- Voice lifecycle states from the spec: PENDING → ACTIVE → RELEASING →
TERMINATED. -/
inductive VoiceState where
  | PENDING : VoiceState
  | ACTIVE : VoiceState
  | RELEASING : VoiceState
  | TERMINATED : VoiceState
deriving DecidableEq, Repr

/-- Modelled from the spec: a voice record of the Voice Lifecycle Tracker
(absent from the headers): identity key (port, channel 0-15, key 0-127),
activation time and state. -/
structure VoiceRecord where
  port : Int
  channel : Int
  key : Int
  startTime : Nat
  state : VoiceState
deriving DecidableEq, Repr

/-- Structure `clap_event_note` from events.h: header time plus `port_index`, `key`
(0..127), `channel` (0..15) and `velocity` (0..1); -1 in key or channel is
the wildcard. -/
structure clap_event_note where
  time : Nat
  port_index : Int
  key : Int
  channel : Int
  velocity : ℚ
deriving DecidableEq, Repr

/-- The four note event kinds of events.h that use `clap_event_note`. -/
inductive NoteEventType where
  | NOTE_ON : NoteEventType
  | NOTE_OFF : NoteEventType
  | NOTE_CHOKE : NoteEventType
  | NOTE_END : NoteEventType
deriving DecidableEq, Repr

/-- Matching rule from events.h (`clap_event_note` doc): "key and channel
are used to match active notes, a value of -1 matches all"; the port must
agree (the spec: "match all voices on this port with other fields
matching"). Velocity takes no part in matching. -/
def noteMatches (ev : clap_event_note) (v : VoiceRecord) : Bool :=
  ev.port_index == v.port &&
    (ev.key == -1 || ev.key == v.key) &&
    (ev.channel == -1 || ev.channel == v.channel)

/-- Modelled from the spec: NOTE_OFF sets a matching ACTIVE voice to
RELEASING; any other voice (including an already RELEASING one) is left
untouched — a redundant off is a no-op. -/
def offOne (ev : clap_event_note) (v : VoiceRecord) : VoiceRecord :=
  if noteMatches ev v && v.state == VoiceState.ACTIVE then
    { v with state := VoiceState.RELEASING }
  else v

/-- Modelled from the spec: NOTE_CHOKE immediately and silently terminates a
matching ACTIVE or RELEASING voice, skipping the RELEASING phase; the
event's velocity is ignored and no NOTE_END is involved. -/
def chokeOne (ev : clap_event_note) (v : VoiceRecord) : VoiceRecord :=
  if noteMatches ev v && (v.state == VoiceState.ACTIVE ||
      v.state == VoiceState.RELEASING) then
    { v with state := VoiceState.TERMINATED }
  else v

/-- Modelled from the spec: the tracker observes an explicit end-of-voice
signal (NOTE_END) and moves the matching RELEASING voice to TERMINATED. -/
def endOne (ev : clap_event_note) (v : VoiceRecord) : VoiceRecord :=
  if noteMatches ev v && v.state == VoiceState.RELEASING then
    { v with state := VoiceState.TERMINATED }
  else v

/-- Modelled from the spec: one Voice Lifecycle Tracker step (the tracker is
absent from the headers). NOTE_ON allocates a new ACTIVE record (spec 4.3:
NOTE_ON → ACTIVE directly, PENDING being an internal optimization only);
the other kinds act on every matching record of the table at once. -/
def voiceStep (vs : List VoiceRecord) (ty : NoteEventType)
    (ev : clap_event_note) : List VoiceRecord :=
  match ty with
  | NoteEventType.NOTE_ON =>
    vs ++ [{ port := ev.port_index, channel := ev.channel, key := ev.key,
             startTime := ev.time, state := VoiceState.ACTIVE }]
  | NoteEventType.NOTE_OFF => vs.map (offOne ev)
  | NoteEventType.NOTE_CHOKE => vs.map (chokeOne ev)
  | NoteEventType.NOTE_END => vs.map (endOne ev)

/-! ## Parameter Resolution Engine (spec section 4.4) -/

/-- The (port, key, channel) target triple of `clap_event_param_value` /
`clap_event_param_mod` when not global; per the spec's data model a voice
scope is an explicit option, the all -1 case standing for `none`. -/
structure VoiceKey where
  port : Int
  key : Int
  channel : Int
deriving DecidableEq, Repr

/-- The four parameter event kinds of events.h, with the payload fields of
`clap_event_param_value`, `clap_event_param_mod` and
`clap_event_param_gesture` (gestures carry only the parameter id). -/
inductive ParamEvent where
  | value : Nat → Nat → Option VoiceKey → ℚ → ParamEvent
  | mod : Nat → Nat → Option VoiceKey → ℚ → ParamEvent
  | gestureBegin : Nat → Nat → ParamEvent
  | gestureEnd : Nat → Nat → ParamEvent
deriving DecidableEq, Repr

/-- The header `time` of a parameter event. -/
def ParamEvent.time : ParamEvent → Nat
  | ParamEvent.value t _ _ _ => t
  | ParamEvent.mod t _ _ _ => t
  | ParamEvent.gestureBegin t _ => t
  | ParamEvent.gestureEnd t _ => t

/-- Whether the event is a gesture bracketing marker
(CLAP_EVENT_PARAM_GESTURE_BEGIN / CLAP_EVENT_PARAM_GESTURE_END). -/
def ParamEvent.isGestureEvent : ParamEvent → Bool
  | ParamEvent.gestureBegin _ _ => true
  | ParamEvent.gestureEnd _ _ => true
  | _ => false

/-- Modelled from the spec: the Parameter Resolution Engine's state (absent
from the headers): per (param id, optional voice scope) the last set base
value and modulation amount (`none` before any event touched the slot), and
per param id the "is being gestured" flag. -/
structure ParamState where
  base : Nat → Option VoiceKey → Option ℚ
  amount : Nat → Option VoiceKey → Option ℚ
  gestured : Nat → Bool

/-- The engine's state before any event. -/
def emptyParamState : ParamState :=
  ⟨fun _ _ => none, fun _ _ => none, fun _ => false⟩

/-- Modelled from the spec: the engine's state update for one event:
PARAM_VALUE sets the base value of its (param, scope) slot, PARAM_MOD sets
(replaces, never adds to) the modulation amount of its slot, and gesture
events only toggle the "is being gestured" flag. -/
def paramStep (s : ParamState) (e : ParamEvent) : ParamState :=
  match e with
  | ParamEvent.value _ pid sc v =>
    { s with base := fun p q => if p = pid ∧ q = sc then some v else s.base p q }
  | ParamEvent.mod _ pid sc a =>
    { s with amount := fun p q => if p = pid ∧ q = sc then some a else s.amount p q }
  | ParamEvent.gestureBegin _ pid =>
    { s with gestured := fun p => if p = pid then true else s.gestured p }
  | ParamEvent.gestureEnd _ pid =>
    { s with gestured := fun p => if p = pid then false else s.gestured p }

/-- Modelled from the spec: the engine state valid at sample offset `ofs`:
every event at or before `ofs` applied in queue order on top of `s0`. -/
def stateAt (s0 : ParamState) (evs : List ParamEvent) (ofs : Nat) :
    ParamState :=
  match evs with
  | [] => s0
  | e :: rest =>
    if e.time ≤ ofs then stateAt (paramStep s0 e) rest ofs
    else stateAt s0 rest ofs

/-- Modelled from the spec: the engine's query — effective value for a
(param id, optional scope) at an offset: last base value plus last
modulation amount of that slot, a never-touched slot reading 0. -/
def resolve (s0 : ParamState) (evs : List ParamEvent) (pid : Nat)
    (sc : Option VoiceKey) (ofs : Nat) : ℚ :=
  ((stateAt s0 evs ofs).base pid sc).getD 0 +
    ((stateAt s0 evs ofs).amount pid sc).getD 0

/-- The spec's own characterization for C2, stated independently of the
engine: the value of the most recent (last in queue order) PARAM_VALUE
event at or before `ofs` targeting exactly (pid, sc), starting from the
fallback `acc`. -/
def lastValueFrom (acc : Option ℚ) (evs : List ParamEvent) (pid : Nat)
    (sc : Option VoiceKey) (ofs : Nat) : Option ℚ :=
  evs.foldl
    (fun a e =>
      match e with
      | ParamEvent.value t p q v =>
        if t ≤ ofs ∧ pid = p ∧ sc = q then some v else a
      | _ => a) acc

/-- As `lastValueFrom`, for the most recent PARAM_MOD amount. -/
def lastModFrom (acc : Option ℚ) (evs : List ParamEvent) (pid : Nat)
    (sc : Option VoiceKey) (ofs : Nat) : Option ℚ :=
  evs.foldl
    (fun a e =>
      match e with
      | ParamEvent.mod t p q m =>
        if t ≤ ofs ∧ pid = p ∧ sc = q then some m else a
      | _ => a) acc

/-- Modelled from the spec: a voice's effective value under the per-voice
precedence rule: the base falls back from the voice slot to the global
slot; the modulation amount uses ONLY the voice-scope slot when one is set
(it already subsumes the global contribution), else the global slot. -/
def voiceEffective (s0 : ParamState) (evs : List ParamEvent) (pid : Nat)
    (vk : VoiceKey) (ofs : Nat) : ℚ :=
  (match (stateAt s0 evs ofs).base pid (some vk) with
   | some bv => bv
   | none => ((stateAt s0 evs ofs).base pid none).getD 0) +
    (match (stateAt s0 evs ofs).amount pid (some vk) with
     | some a => a
     | none => ((stateAt s0 evs ofs).amount pid none).getD 0)

/-! ## Transport/Time Tracker (spec section 4.5) -/

/-- Structure `clap_event_transport` from events.h: flags bitmask, song position on
both timelines, tempo and per-sample tempo increment, loop bounds, bar
start/number, time signature. -/
structure clap_event_transport where
  flags : Nat
  song_pos_beats : Int
  song_pos_seconds : Int
  tempo : ℚ
  tempo_inc : ℚ
  loop_start_beats : Int
  loop_end_beats : Int
  loop_start_seconds : Int
  loop_end_seconds : Int
  bar_start : Int
  bar_number : Int
  tsig_num : Int
  tsig_denom : Int
deriving DecidableEq, Repr

/-- Modelled from the spec: the Transport/Time Tracker's state machine:
NO_TRANSPORT (free-running) versus SYNCED with the last received
snapshot. -/
inductive TransportState where
  | NO_TRANSPORT : TransportState
  | SYNCED : clap_event_transport → TransportState
deriving DecidableEq, Repr

/-- The transport-relevant part of a block descriptor: the nullable
`clap_process.transport` reference and the CLAP_EVENT_TRANSPORT events
delivered inside the block, in time order. -/
structure TransportBlock where
  transport : Option clap_event_transport
  transportEvents : List clap_event_transport
deriving DecidableEq, Repr

/-- Modelled from the spec: the Transport/Time Tracker's per-block step
(absent from the headers): a null transport reference forces NO_TRANSPORT
regardless of prior state; with a non-null reference each transport event
re-synchronizes to its snapshot, and a block with no transport event
inherits the previous state verbatim. -/
def transportBlockStep (prev : TransportState) (b : TransportBlock) :
    TransportState :=
  match b.transport with
  | none => TransportState.NO_TRANSPORT
  | some _ => b.transportEvents.foldl (fun _ e => TransportState.SYNCED e) prev

/-- The tracker run over a sequence of blocks. -/
def transportRun (init : TransportState) (bs : List TransportBlock) :
    TransportState :=
  bs.foldl transportBlockStep init

/-! ## Output event queue (spec section 4.1) -/

/-- Modelled from the spec: the capacity-bounded queue behind
`clap_output_events` (events.h declares only the `try_push` function
pointer). -/
structure OutputQueue where
  capacity : Nat
  events : List clap_event_header
deriving DecidableEq, Repr

/-- Modelled from the spec: `try_push` (events.h: "Pushes a copy of the
event; returns false if the event could not be pushed to the queue") —
non-blocking, appends a copy of the event value on success, and fails
without touching the stored contents when the capacity is exhausted. -/
def try_push (q : OutputQueue) (e : clap_event_header) : Bool × OutputQueue :=
  if q.events.length < q.capacity then
    (true, { q with events := q.events ++ [e] })
  else
    (false, q)

/-! ## Process Loop Driver (spec section 4.6 and section 7) -/

/-- Modelled from the spec: the Process Loop Driver's validation of a
block's input events (the driver is absent from the headers): sorted by
non-decreasing time, every time strictly before `frames_count`, and every
header size equal to the size the type tag determines (`expSize` being the
implementation's size table, "payload size is fully determined by the type
tag"; an unknown type has no entry and fails the check). -/
def eventsWellFormed (expSize : Nat → Option Nat) (frames_count : Nat)
    (evs : List clap_event_header) : Bool :=
  timesSorted evs &&
    evs.all fun e =>
      decide (e.time < frames_count) && (expSize e.type == some e.size)

/-- Modelled from the spec: the Process Loop Driver's per-block outcome: on
a protocol violation it reports CLAP_PROCESS_ERROR and the produced output
is discarded (`none`); otherwise it returns the DSP-determined status and
the produced output queue. -/
def processBlock (expSize : Nat → Option Nat) (frames_count : Nat)
    (evs : List clap_event_header) (dspStatus : Nat) (out : OutputQueue) :
    Nat × Option OutputQueue :=
  if eventsWellFormed expSize frames_count evs then (dspStatus, some out)
  else (CLAP_PROCESS_ERROR, none)

/-! ## steady_time contract (process.h) -/

/-- The fields of `clap_process` the steady-time contract concerns. -/
structure ProcessCall where
  steady_time : Int
  frames_count : Nat
deriving DecidableEq, Repr

/-- From process.h: "Set to -1 if not available, otherwise the value must be
greater or equal to 0". -/
def steady_time_field_ok (st : Int) : Bool :=
  st == -1 || decide (0 ≤ st)

/-- Modelled from the spec: the host obligation process.h states across a
sequence of process calls: every `steady_time` is the sentinel or
non-negative, and between two consecutive calls with the counter available
it "must be increased by at least `frames_count`". -/
def steadyTraceOk : List ProcessCall → Bool
  | [] => true
  | [c] => steady_time_field_ok c.steady_time
  | c :: c' :: rest =>
    steady_time_field_ok c.steady_time &&
      (c.steady_time == -1 || c'.steady_time == -1 ||
        decide (c.steady_time + (c.frames_count : Int) ≤ c'.steady_time)) &&
      steadyTraceOk (c' :: rest)

end Clap

namespace Clap

/-! ## Dispatcher lemmas -/

theorem groupByTime_cons (e : clap_event_header)
    (rest : List clap_event_header) :
    groupByTime (e :: rest) = insertGroup e (groupByTime rest) := rfl

theorem timesSorted_head {a b : clap_event_header} {r : List clap_event_header}
    (h : timesSorted (a :: b :: r) = true) : a.time ≤ b.time := by
  simp only [timesSorted, Bool.and_eq_true, decide_eq_true_eq] at h
  exact h.1

theorem timesSorted_tail {a : clap_event_header} {r : List clap_event_header}
    (h : timesSorted (a :: r) = true) : timesSorted r = true := by
  cases r with
  | nil => rfl
  | cons b r' =>
    simp only [timesSorted, Bool.and_eq_true] at h
    exact h.2

theorem insertGroup_flatten (e : clap_event_header)
    (gs : List (Nat × List clap_event_header)) :
    ((insertGroup e gs).map Prod.snd).flatten = e :: (gs.map Prod.snd).flatten := by
  cases gs with
  | nil => rfl
  | cons p gs' =>
    obtain ⟨t, g⟩ := p
    by_cases ht : e.time = t <;> simp [insertGroup, ht]

theorem groupByTime_flatten (evs : List clap_event_header) :
    ((groupByTime evs).map Prod.snd).flatten = evs := by
  induction evs with
  | nil => rfl
  | cons e rest ih =>
    rw [groupByTime_cons, insertGroup_flatten, ih]

theorem insertGroup_times (e : clap_event_header)
    (gs : List (Nat × List clap_event_header))
    (hg : ∀ p ∈ gs, ∀ x ∈ p.2, x.time = p.1) :
    ∀ p ∈ insertGroup e gs, ∀ x ∈ p.2, x.time = p.1 := by
  cases gs with
  | nil =>
    intro p hp x hx
    simp only [insertGroup, List.mem_singleton] at hp
    subst hp
    simp only [List.mem_singleton] at hx
    subst hx
    rfl
  | cons q gs' =>
    obtain ⟨t, g⟩ := q
    intro p hp x hx
    by_cases ht : e.time = t
    · rw [insertGroup, if_pos ht] at hp
      rcases List.mem_cons.mp hp with rfl | hp'
      · rcases List.mem_cons.mp hx with rfl | hx'
        · exact ht
        · exact hg (t, g) (List.mem_cons_self _ _) x hx'
      · exact hg p (List.mem_cons_of_mem _ hp') x hx
    · rw [insertGroup, if_neg ht] at hp
      rcases List.mem_cons.mp hp with rfl | hp'
      · simp only [List.mem_singleton] at hx
        subst hx
        rfl
      · exact hg p hp' x hx

theorem groupByTime_times (evs : List clap_event_header) :
    ∀ p ∈ groupByTime evs, ∀ x ∈ p.2, x.time = p.1 := by
  induction evs with
  | nil => intro p hp; simp [groupByTime] at hp
  | cons e rest ih =>
    rw [groupByTime_cons]
    exact insertGroup_times e (groupByTime rest) ih

theorem groupByTime_head_time (e : clap_event_header)
    (rest : List clap_event_header) :
    ∃ g gs, groupByTime (e :: rest) = (e.time, g) :: gs := by
  rw [groupByTime_cons]
  cases hgs : groupByTime rest with
  | nil => exact ⟨[e], [], rfl⟩
  | cons q gs' =>
    obtain ⟨t, g⟩ := q
    by_cases ht : e.time = t
    · subst ht
      exact ⟨e :: g, gs', by simp [insertGroup]⟩
    · exact ⟨[e], (t, g) :: gs', by simp [insertGroup, ht]⟩

theorem groupByTime_chain (evs : List clap_event_header)
    (h : timesSorted evs = true) :
    List.Chain' (fun a b => a < b) ((groupByTime evs).map Prod.fst) := by
  induction evs with
  | nil => simp [groupByTime]
  | cons e rest ih =>
    cases rest with
    | nil => simp [groupByTime, insertGroup]
    | cons b r =>
      have hle : e.time ≤ b.time := timesSorted_head h
      have ihc := ih (timesSorted_tail h)
      obtain ⟨g, gs, hg⟩ := groupByTime_head_time b r
      rw [hg] at ihc
      rw [groupByTime_cons, hg]
      by_cases ht : e.time = b.time
      · rw [insertGroup, if_pos ht]
        simpa using ihc
      · rw [insertGroup, if_neg ht]
        simp only [List.map_cons] at ihc ⊢
        rw [List.chain'_cons]
        exact ⟨lt_of_le_of_ne hle ht, ihc⟩

end Clap

namespace Clap

/-! ## Theorems -/

/-- Claim C9: `clap_version_is_compatible v` holds iff `v.major = 0` and
`v.minor = 24` (the header constants `CLAP_VERSION_MAJOR`,
`CLAP_VERSION_MINOR`), and the `revision` field never influences the
result. -/
theorem version_is_compatible_iff_major_minor (v : clap_version) :
    (clap_version_is_compatible v = true ↔
      v.major = CLAP_VERSION_MAJOR ∧ v.minor = CLAP_VERSION_MINOR) ∧
    (CLAP_VERSION_MAJOR = 0 ∧ CLAP_VERSION_MINOR = 24) ∧
    ∀ r : Nat,
      clap_version_is_compatible { v with revision := r } =
        clap_version_is_compatible v := by
  refine ⟨?_, ⟨rfl, rfl⟩, ?_⟩
  · simp [clap_version_is_compatible]
  · intro r
    simp [clap_version_is_compatible]

end Clap

namespace Clap

/-! ## Steady-time lemmas -/

theorem steadyTraceOk_field {c : ProcessCall} {rest : List ProcessCall}
    (h : steadyTraceOk (c :: rest) = true) :
    steady_time_field_ok c.steady_time = true := by
  cases rest with
  | nil => exact h
  | cons c' r =>
    simp only [steadyTraceOk, Bool.and_eq_true] at h
    exact h.1.1

theorem steadyTraceOk_tail {c : ProcessCall} {rest : List ProcessCall}
    (h : steadyTraceOk (c :: rest) = true) : steadyTraceOk rest = true := by
  cases rest with
  | nil => rfl
  | cons c' r =>
    simp only [steadyTraceOk, Bool.and_eq_true] at h
    exact h.2

theorem steadyTraceOk_gap {c c' : ProcessCall} {rest : List ProcessCall}
    (h : steadyTraceOk (c :: c' :: rest) = true) :
    c.steady_time = -1 ∨ c'.steady_time = -1 ∨
      c.steady_time + (c.frames_count : Int) ≤ c'.steady_time := by
  simp only [steadyTraceOk, Bool.and_eq_true, Bool.or_eq_true,
    decide_eq_true_eq, beq_iff_eq] at h
  tauto

/-! ## Claim theorems: dispatcher, queue, driver, transport, steady time -/

/-- Claim C3: for every input event sequence sorted by non-decreasing time, the
Dispatcher visits the sub-ranges in increasing start-time order, every
event lands in the sub-range of its own time, and flattening the sub-ranges
in visit order returns exactly the original queue — same-timestamp events
keep their original queue order and no reordering is introduced. -/
theorem dispatcher_stability (evs : List clap_event_header)
    (h : timesSorted evs = true) :
    List.Chain' (fun a b => a < b) ((groupByTime evs).map Prod.fst) ∧
    ((groupByTime evs).map Prod.snd).flatten = evs ∧
    ∀ p ∈ groupByTime evs, ∀ x ∈ p.2, x.time = p.1 :=
  ⟨groupByTime_chain evs h, groupByTime_flatten evs, groupByTime_times evs⟩

theorem dispatcher_stability_witness :
    ((groupByTime [⟨8, 3, 0, 0, 0⟩, ⟨8, 3, 0, 1, 0⟩, ⟨8, 7, 0, 5, 0⟩]).map
        Prod.snd).flatten =
      [⟨8, 3, 0, 0, 0⟩, ⟨8, 3, 0, 1, 0⟩, ⟨8, 7, 0, 5, 0⟩] :=
  (dispatcher_stability
    [⟨8, 3, 0, 0, 0⟩, ⟨8, 3, 0, 1, 0⟩, ⟨8, 7, 0, 5, 0⟩] (by decide)).2.1

/-- Claim C7: `try_push` on a queue at capacity returns failure (no fatal error,
no blocking — it is a total function returning `false`) and leaves the
queue's prior contents and capacity unchanged (no partial write); on
success it returns `true` and the new contents are exactly the old ones
with a copy of the event value appended at the back. -/
theorem try_push_at_capacity_unchanged (q : OutputQueue)
    (e : clap_event_header) :
    (q.capacity ≤ q.events.length → try_push q e = (false, q)) ∧
    (q.events.length < q.capacity →
      (try_push q e).1 = true ∧
        (try_push q e).2 = { q with events := q.events ++ [e] }) := by
  constructor
  · intro h
    rw [try_push, if_neg (by omega)]
  · intro h
    rw [try_push, if_pos h]
    exact ⟨rfl, rfl⟩

theorem try_push_at_capacity_unchanged_witness :
    try_push ⟨1, [⟨8, 0, 0, 0, 0⟩]⟩ ⟨8, 1, 0, 0, 0⟩ =
      (false, ⟨1, [⟨8, 0, 0, 0, 0⟩]⟩) ∧
    (try_push ⟨2, [⟨8, 0, 0, 0, 0⟩]⟩ ⟨8, 1, 0, 0, 0⟩).2 =
      ⟨2, [⟨8, 0, 0, 0, 0⟩, ⟨8, 1, 0, 0, 0⟩]⟩ := by
  constructor
  · exact (try_push_at_capacity_unchanged ⟨1, [⟨8, 0, 0, 0, 0⟩]⟩
      ⟨8, 1, 0, 0, 0⟩).1 (by decide)
  · exact ((try_push_at_capacity_unchanged ⟨2, [⟨8, 0, 0, 0, 0⟩]⟩
      ⟨8, 1, 0, 0, 0⟩).2 (by decide)).2

/-- Claim C8: whenever the block's input events violate the protocol — not sorted
by non-decreasing time, some event time at or beyond `frames_count`, or
some event size inconsistent with its declared type — the Process Loop
Driver returns CLAP_PROCESS_ERROR and the produced output is discarded. -/
theorem processBlock_rejects_protocol_violation
    (expSize : Nat → Option Nat) (fc : Nat) (evs : List clap_event_header)
    (dspStatus : Nat) (out : OutputQueue)
    (h : timesSorted evs = false ∨ (∃ e ∈ evs, fc ≤ e.time) ∨
      ∃ e ∈ evs, expSize e.type ≠ some e.size) :
    processBlock expSize fc evs dspStatus out = (CLAP_PROCESS_ERROR, none) := by
  have hwf : ¬eventsWellFormed expSize fc evs = true := by
    intro hwf
    simp only [eventsWellFormed, Bool.and_eq_true, List.all_eq_true,
      decide_eq_true_eq, beq_iff_eq] at hwf
    obtain ⟨hsort, hall⟩ := hwf
    rcases h with h | ⟨e, he, ht⟩ | ⟨e, he, hs⟩
    · rw [h] at hsort
      exact Bool.false_ne_true hsort
    · have hlt := (hall e he).1
      omega
    · exact hs (hall e he).2
  simp only [processBlock, if_neg hwf]

theorem processBlock_rejects_protocol_violation_witness :
    processBlock (fun _ => some 8) 16 [⟨8, 5, 0, 0, 0⟩, ⟨8, 2, 0, 0, 0⟩] 1
      ⟨4, []⟩ = (CLAP_PROCESS_ERROR, none) :=
  processBlock_rejects_protocol_violation (fun _ => some 8) 16
    [⟨8, 5, 0, 0, 0⟩, ⟨8, 2, 0, 0, 0⟩] 1 ⟨4, []⟩ (Or.inl (by decide))

/-- Claim C6: over any block history, a block whose descriptor carries a null
transport reference leaves the tracker in NO_TRANSPORT regardless of the
prior state — in particular after a history that left it SYNCED (hard-reset
law); a block with a non-null reference but no transport event returns the
previous state verbatim, also under a whole run. -/
theorem transport_hard_reset :
    (∀ (init : TransportState) (bs : List TransportBlock)
        (evs : List clap_event_transport),
      transportRun init (bs ++ [⟨none, evs⟩]) = TransportState.NO_TRANSPORT) ∧
    (∀ (prev : TransportState) (t : clap_event_transport),
      transportBlockStep prev ⟨some t, []⟩ = prev) ∧
    (∀ (init : TransportState) (bs : List TransportBlock)
        (t : clap_event_transport),
      transportRun init (bs ++ [⟨some t, []⟩]) = transportRun init bs) := by
  refine ⟨?_, ?_, ?_⟩
  · intro init bs evs
    rw [transportRun, List.foldl_append]
    rfl
  · intro prev t
    rfl
  · intro init bs t
    rw [transportRun, List.foldl_append]
    rfl

/-- Claim C10: in every call sequence satisfying the steady-time obligation of
process.h, each `steady_time` is the sentinel -1 or non-negative, and for
any two successive calls that both carry an available counter the later one
is at least the earlier plus the earlier call's `frames_count`. -/
theorem steady_time_monotone (trace : List ProcessCall)
    (h : steadyTraceOk trace = true) :
    (∀ c ∈ trace, c.steady_time = -1 ∨ 0 ≤ c.steady_time) ∧
    ∀ (i : Nat) (c c' : ProcessCall), trace.get? i = some c →
      trace.get? (i + 1) = some c' →
      c.steady_time ≠ -1 → c'.steady_time ≠ -1 →
      c.steady_time + (c.frames_count : Int) ≤ c'.steady_time := by
  induction trace with
  | nil =>
    refine ⟨by simp, ?_⟩
    intro i c c' hc
    simp at hc
  | cons a rest ih =>
    obtain ⟨ih1, ih2⟩ := ih (steadyTraceOk_tail h)
    constructor
    · intro x hx
      rcases List.mem_cons.mp hx with rfl | hx'
      · have hf := steadyTraceOk_field h
        simp only [steady_time_field_ok, Bool.or_eq_true, beq_iff_eq,
          decide_eq_true_eq] at hf
        exact hf
      · exact ih1 x hx'
    · intro i c c' hc hc' hnc hnc'
      cases i with
      | zero =>
        rw [List.get?_cons_zero] at hc
        rw [List.get?_cons_succ] at hc'
        cases rest with
        | nil => simp at hc'
        | cons b r =>
          rw [List.get?_cons_zero] at hc'
          injection hc with hac
          injection hc' with hbc
          subst hac
          subst hbc
          rcases steadyTraceOk_gap h with h1 | h1 | h1
          · exact absurd h1 hnc
          · exact absurd h1 hnc'
          · exact h1
      | succ n =>
        exact ih2 n c c' (by simpa using hc) (by simpa using hc') hnc hnc'

theorem steady_time_monotone_witness :
    (⟨0, 16⟩ : ProcessCall).steady_time +
        ((⟨0, 16⟩ : ProcessCall).frames_count : Int) ≤
      (⟨16, 8⟩ : ProcessCall).steady_time :=
  (steady_time_monotone [⟨0, 16⟩, ⟨16, 8⟩] (by decide)).2 0 ⟨0, 16⟩ ⟨16, 8⟩
    (by decide) (by decide) (by decide) (by decide)

end Clap

namespace Clap

/-! ## Parameter Resolution Engine lemmas -/

theorem stateAt_cons_le {e : ParamEvent} {ofs : Nat} (h : e.time ≤ ofs)
    (s0 : ParamState) (rest : List ParamEvent) :
    stateAt s0 (e :: rest) ofs = stateAt (paramStep s0 e) rest ofs := by
  simp only [stateAt, if_pos h]

theorem stateAt_cons_gt {e : ParamEvent} {ofs : Nat} (h : ¬e.time ≤ ofs)
    (s0 : ParamState) (rest : List ParamEvent) :
    stateAt s0 (e :: rest) ofs = stateAt s0 rest ofs := by
  simp only [stateAt, if_neg h]

theorem stateAt_base (evs : List ParamEvent) (s0 : ParamState) (pid : Nat)
    (sc : Option VoiceKey) (ofs : Nat) :
    (stateAt s0 evs ofs).base pid sc =
      lastValueFrom (s0.base pid sc) evs pid sc ofs := by
  induction evs generalizing s0 with
  | nil => rfl
  | cons e rest ih =>
    by_cases hte : e.time ≤ ofs
    · rw [stateAt_cons_le hte, ih]
      simp only [lastValueFrom, List.foldl_cons]
      congr 1
      cases e with
      | value t p q v =>
        have ht : t ≤ ofs := hte
        simp [paramStep, ParamEvent.time, ht]
      | mod t p q a => rfl
      | gestureBegin t p => rfl
      | gestureEnd t p => rfl
    · rw [stateAt_cons_gt hte, ih]
      simp only [lastValueFrom, List.foldl_cons]
      congr 1
      cases e with
      | value t p q v =>
        have ht : ¬t ≤ ofs := hte
        simp [ParamEvent.time, ht]
      | mod t p q a => rfl
      | gestureBegin t p => rfl
      | gestureEnd t p => rfl

theorem stateAt_amount (evs : List ParamEvent) (s0 : ParamState) (pid : Nat)
    (sc : Option VoiceKey) (ofs : Nat) :
    (stateAt s0 evs ofs).amount pid sc =
      lastModFrom (s0.amount pid sc) evs pid sc ofs := by
  induction evs generalizing s0 with
  | nil => rfl
  | cons e rest ih =>
    by_cases hte : e.time ≤ ofs
    · rw [stateAt_cons_le hte, ih]
      simp only [lastModFrom, List.foldl_cons]
      congr 1
      cases e with
      | value t p q v => rfl
      | mod t p q a =>
        have ht : t ≤ ofs := hte
        simp [paramStep, ParamEvent.time, ht]
      | gestureBegin t p => rfl
      | gestureEnd t p => rfl
    · rw [stateAt_cons_gt hte, ih]
      simp only [lastModFrom, List.foldl_cons]
      congr 1
      cases e with
      | value t p q v => rfl
      | mod t p q a =>
        have ht : ¬t ≤ ofs := hte
        simp [ParamEvent.time, ht]
      | gestureBegin t p => rfl
      | gestureEnd t p => rfl

theorem lastValueFrom_append (acc : Option ℚ) (l1 l2 : List ParamEvent)
    (pid : Nat) (sc : Option VoiceKey) (ofs : Nat) :
    lastValueFrom acc (l1 ++ l2) pid sc ofs =
      lastValueFrom (lastValueFrom acc l1 pid sc ofs) l2 pid sc ofs := by
  simp only [lastValueFrom, List.foldl_append]

theorem lastModFrom_append (acc : Option ℚ) (l1 l2 : List ParamEvent)
    (pid : Nat) (sc : Option VoiceKey) (ofs : Nat) :
    lastModFrom acc (l1 ++ l2) pid sc ofs =
      lastModFrom (lastModFrom acc l1 pid sc ofs) l2 pid sc ofs := by
  simp only [lastModFrom, List.foldl_append]

theorem lastValueFrom_gesture_cons {g : ParamEvent}
    (hg : g.isGestureEvent = true) (acc : Option ℚ) (l : List ParamEvent)
    (pid : Nat) (sc : Option VoiceKey) (ofs : Nat) :
    lastValueFrom acc (g :: l) pid sc ofs = lastValueFrom acc l pid sc ofs := by
  cases g with
  | value t p q v => simp [ParamEvent.isGestureEvent] at hg
  | mod t p q a => simp [ParamEvent.isGestureEvent] at hg
  | gestureBegin t p => rfl
  | gestureEnd t p => rfl

theorem lastModFrom_gesture_cons {g : ParamEvent}
    (hg : g.isGestureEvent = true) (acc : Option ℚ) (l : List ParamEvent)
    (pid : Nat) (sc : Option VoiceKey) (ofs : Nat) :
    lastModFrom acc (g :: l) pid sc ofs = lastModFrom acc l pid sc ofs := by
  cases g with
  | value t p q v => simp [ParamEvent.isGestureEvent] at hg
  | mod t p q a => simp [ParamEvent.isGestureEvent] at hg
  | gestureBegin t p => rfl
  | gestureEnd t p => rfl

/-! ## Claim theorems: Parameter Resolution Engine -/

/-- Claim C2: for every parameter id, optional voice scope and sample offset, the
engine's effective value equals the value of the most recent PARAM_VALUE
event at or before that offset for that exact (id, scope) slot plus the
amount of the most recent PARAM_MOD event at or before it for that slot
(each falling back to the initial state's slot content and then to 0), and
a gesture event inserted anywhere in the queue never changes the computed
value. -/
theorem resolve_contract (s0 : ParamState) (evs : List ParamEvent) (pid : Nat)
    (sc : Option VoiceKey) (ofs : Nat) :
    (resolve s0 evs pid sc ofs =
      (lastValueFrom (s0.base pid sc) evs pid sc ofs).getD 0 +
        (lastModFrom (s0.amount pid sc) evs pid sc ofs).getD 0) ∧
    ∀ (l1 l2 : List ParamEvent) (g : ParamEvent), g.isGestureEvent = true →
      resolve s0 (l1 ++ g :: l2) pid sc ofs =
        resolve s0 (l1 ++ l2) pid sc ofs := by
  constructor
  · simp only [resolve, stateAt_base, stateAt_amount]
  · intro l1 l2 g hg
    simp only [resolve, stateAt_base, stateAt_amount, lastValueFrom_append,
      lastModFrom_append, lastValueFrom_gesture_cons hg,
      lastModFrom_gesture_cons hg]

theorem resolve_contract_witness :
    resolve emptyParamState
        ([ParamEvent.value 0 7 none (1/2)] ++ ParamEvent.gestureBegin 1 7 ::
          [ParamEvent.mod 2 7 none (1/4)]) 7 none 4 =
      resolve emptyParamState
        ([ParamEvent.value 0 7 none (1/2)] ++ [ParamEvent.mod 2 7 none (1/4)])
        7 none 4 :=
  (resolve_contract emptyParamState [] 7 none 4).2
    [ParamEvent.value 0 7 none (1/2)] [ParamEvent.mod 2 7 none (1/4)]
    (ParamEvent.gestureBegin 1 7) rfl

/-- Claim C1: per-voice precedence: when a global-scope modulation and a
voice-scope modulation target the same parameter and the same voice at the
same sample offset, the voice's effective value uses only the voice-scope
amount on top of the base value: with base b, global amount g and
voice-scope amount a it is b + a for every g; in particular base 0.5,
global +0.1 and voice-scope +0.2 give 0.7, not 0.8. -/
theorem voice_mod_supersedes_global (pid : Nat) (vk : VoiceKey)
    (b g a : ℚ) (t : Nat) :
    voiceEffective emptyParamState
        [ParamEvent.value t pid none b, ParamEvent.mod t pid none g,
          ParamEvent.mod t pid (some vk) a] pid vk t = b + a ∧
    voiceEffective emptyParamState
        [ParamEvent.value 0 0 none (1/2), ParamEvent.mod 0 0 none (1/10),
          ParamEvent.mod 0 0 (some vk) (1/5)] 0 vk 0 = 7/10 ∧
    voiceEffective emptyParamState
        [ParamEvent.value 0 0 none (1/2), ParamEvent.mod 0 0 none (1/10),
          ParamEvent.mod 0 0 (some vk) (1/5)] 0 vk 0 ≠ 8/10 := by
  refine ⟨?_, ?_, ?_⟩
  · simp [voiceEffective, stateAt, paramStep, emptyParamState, ParamEvent.time]
  · simp [voiceEffective, stateAt, paramStep, emptyParamState, ParamEvent.time]
    norm_num
  · simp [voiceEffective, stateAt, paramStep, emptyParamState, ParamEvent.time]
    norm_num

end Clap

namespace Clap

/-! ## Claim theorems: Voice Lifecycle Tracker -/

/-- Claim C4: a NOTE_CHOKE moves every matching voice (ACTIVE or RELEASING)
directly to TERMINATED, never through RELEASING, with the event's velocity
ignored and no end-of-voice (NOTE_END) signal involved; a NOTE_OFF on a
matching ACTIVE voice moves it to RELEASING only, a RELEASING voice is
untouched by NOTE_OFF, and it reaches TERMINATED upon the explicit NOTE_END
signal; the spec's scenario on (port 0, channel 0, key 60) follows:
NOTE_ON makes the voice ACTIVE, NOTE_OFF makes it RELEASING, and a
NOTE_CHOKE while RELEASING makes it TERMINATED with no NOTE_END. -/
theorem choke_skips_releasing :
    (∀ (vs : List VoiceRecord) (v : VoiceRecord) (ev : clap_event_note),
      v ∈ vs → noteMatches ev v = true →
      v.state = VoiceState.ACTIVE ∨ v.state = VoiceState.RELEASING →
      { v with state := VoiceState.TERMINATED } ∈
        voiceStep vs NoteEventType.NOTE_CHOKE ev) ∧
    (∀ (vs : List VoiceRecord) (ev : clap_event_note) (vel vel' : ℚ),
      voiceStep vs NoteEventType.NOTE_CHOKE { ev with velocity := vel } =
        voiceStep vs NoteEventType.NOTE_CHOKE { ev with velocity := vel' }) ∧
    (∀ (vs : List VoiceRecord) (v : VoiceRecord) (ev : clap_event_note),
      v ∈ vs → noteMatches ev v = true → v.state = VoiceState.ACTIVE →
      { v with state := VoiceState.RELEASING } ∈
        voiceStep vs NoteEventType.NOTE_OFF ev) ∧
    (∀ (v : VoiceRecord) (ev : clap_event_note),
      v.state = VoiceState.RELEASING → offOne ev v = v) ∧
    (∀ (vs : List VoiceRecord) (v : VoiceRecord) (ev : clap_event_note),
      v ∈ vs → noteMatches ev v = true → v.state = VoiceState.RELEASING →
      { v with state := VoiceState.TERMINATED } ∈
        voiceStep vs NoteEventType.NOTE_END ev) ∧
    (voiceStep [] NoteEventType.NOTE_ON ⟨0, 0, 60, 0, 1⟩ =
        [⟨0, 0, 60, 0, VoiceState.ACTIVE⟩] ∧
      voiceStep [⟨0, 0, 60, 0, VoiceState.ACTIVE⟩] NoteEventType.NOTE_OFF
          ⟨4, 0, 60, 0, 0⟩ =
        [⟨0, 0, 60, 0, VoiceState.RELEASING⟩] ∧
      voiceStep [⟨0, 0, 60, 0, VoiceState.RELEASING⟩] NoteEventType.NOTE_CHOKE
          ⟨8, 0, 60, 0, 0⟩ =
        [⟨0, 0, 60, 0, VoiceState.TERMINATED⟩]) := by
  refine ⟨?_, ?_, ?_, ?_, ?_, by decide, by decide, by decide⟩
  · intro vs v ev hv hm hs
    have hc : chokeOne ev v = { v with state := VoiceState.TERMINATED } := by
      rcases hs with hs | hs <;> simp [chokeOne, hm, hs]
    have hmem := List.mem_map_of_mem (chokeOne ev) hv
    rw [hc] at hmem
    exact hmem
  · intro vs ev vel vel'
    show vs.map (chokeOne { ev with velocity := vel }) =
      vs.map (chokeOne { ev with velocity := vel' })
    have hfun : chokeOne { ev with velocity := vel } =
        chokeOne { ev with velocity := vel' } := by
      funext v
      rfl
    rw [hfun]
  · intro vs v ev hv hm hs
    have ho : offOne ev v = { v with state := VoiceState.RELEASING } := by
      simp [offOne, hm, hs]
    have hmem := List.mem_map_of_mem (offOne ev) hv
    rw [ho] at hmem
    exact hmem
  · intro v ev hs
    simp [offOne, hs]
  · intro vs v ev hv hm hs
    have he : endOne ev v = { v with state := VoiceState.TERMINATED } := by
      simp [endOne, hm, hs]
    have hmem := List.mem_map_of_mem (endOne ev) hv
    rw [he] at hmem
    exact hmem

theorem choke_skips_releasing_witness :
    ({ port := 0, channel := 0, key := 60, startTime := 0,
        state := VoiceState.TERMINATED } : VoiceRecord) ∈
      voiceStep [⟨0, 0, 60, 0, VoiceState.ACTIVE⟩] NoteEventType.NOTE_CHOKE
        ⟨0, 0, 60, 0, 0⟩ :=
  choke_skips_releasing.1 [⟨0, 0, 60, 0, VoiceState.ACTIVE⟩]
    ⟨0, 0, 60, 0, VoiceState.ACTIVE⟩ ⟨0, 0, 60, 0, 0⟩ (by decide) (by decide)
    (Or.inl rfl)

/-- Claim C5: a NOTE_OFF or NOTE_CHOKE carrying the wildcard -1 in its key
or channel field transitions, in one application of the tracker step, every
ACTIVE voice on its port whose non-wildcard fields match (each of key and
channel either matching the voice or itself wildcard); in particular the
spec's scenario: a wildcard NOTE_OFF (key -1, channel 0, port 0) applied to
two ACTIVE voices with keys 60 and 64 on channel 0 moves both to RELEASING
at once. -/
theorem wildcard_matches_all :
    (∀ (ev : clap_event_note) (vs : List VoiceRecord) (v : VoiceRecord),
      ev.key = -1 ∨ ev.channel = -1 → v ∈ vs → v.port = ev.port_index →
      (ev.key = -1 ∨ ev.key = v.key) →
      (ev.channel = -1 ∨ ev.channel = v.channel) →
      v.state = VoiceState.ACTIVE →
      { v with state := VoiceState.RELEASING } ∈
        voiceStep vs NoteEventType.NOTE_OFF ev) ∧
    (∀ (ev : clap_event_note) (vs : List VoiceRecord) (v : VoiceRecord),
      ev.key = -1 ∨ ev.channel = -1 → v ∈ vs → v.port = ev.port_index →
      (ev.key = -1 ∨ ev.key = v.key) →
      (ev.channel = -1 ∨ ev.channel = v.channel) →
      v.state = VoiceState.ACTIVE →
      { v with state := VoiceState.TERMINATED } ∈
        voiceStep vs NoteEventType.NOTE_CHOKE ev) ∧
    voiceStep
        [⟨0, 0, 60, 0, VoiceState.ACTIVE⟩, ⟨0, 0, 64, 0, VoiceState.ACTIVE⟩]
        NoteEventType.NOTE_OFF ⟨0, 0, -1, 0, 0⟩ =
      [⟨0, 0, 60, 0, VoiceState.RELEASING⟩,
        ⟨0, 0, 64, 0, VoiceState.RELEASING⟩] := by
  refine ⟨?_, ?_, by decide⟩
  · intro ev vs v hw hv hport hk hch hs
    have hm : noteMatches ev v = true := by
      rcases hk with hk | hk <;> rcases hch with hc | hc <;>
        simp [noteMatches, hport, hk, hc]
    have ho : offOne ev v = { v with state := VoiceState.RELEASING } := by
      simp [offOne, hm, hs]
    have hmem := List.mem_map_of_mem (offOne ev) hv
    rw [ho] at hmem
    exact hmem
  · intro ev vs v hw hv hport hk hch hs
    have hm : noteMatches ev v = true := by
      rcases hk with hk | hk <;> rcases hch with hc | hc <;>
        simp [noteMatches, hport, hk, hc]
    have hc' : chokeOne ev v = { v with state := VoiceState.TERMINATED } := by
      simp [chokeOne, hm, hs]
    have hmem := List.mem_map_of_mem (chokeOne ev) hv
    rw [hc'] at hmem
    exact hmem

theorem wildcard_matches_all_witness :
    ({ port := 0, channel := 0, key := 60, startTime := 0,
        state := VoiceState.RELEASING } : VoiceRecord) ∈
      voiceStep
        [⟨0, 0, 60, 0, VoiceState.ACTIVE⟩, ⟨0, 0, 64, 0, VoiceState.ACTIVE⟩]
        NoteEventType.NOTE_OFF ⟨0, 0, -1, 0, 0⟩ :=
  wildcard_matches_all.1 ⟨0, 0, -1, 0, 0⟩
    [⟨0, 0, 60, 0, VoiceState.ACTIVE⟩, ⟨0, 0, 64, 0, VoiceState.ACTIVE⟩]
    ⟨0, 0, 60, 0, VoiceState.ACTIVE⟩ (Or.inl rfl) (by decide) rfl (Or.inl rfl)
    (Or.inr rfl) rfl

end Clap
